import Mathlib

/-!
# Verification of the SoniLiveText incremental transcript stabilization engine

Shallow embedding of the engine in `src/soniox/state.rs`,
`src/soniox/transcribe_mode.rs`, `src/soniox/translate_mode.rs` and
`src/types/audio.rs`.  Rust `String` values are modelled at the level of
Unicode scalar values (`String` in Lean, manipulated through its
underlying `List Char`); Rust byte indices coincide with these character
indices on the ASCII fragment, which is where all universal reasoning
takes place.  The byte-level behaviour of the force-split fallback in
`push_final` (the one place where the distinction matters) is modelled
separately with explicit UTF-8 byte offsets.  `Instant` timestamps are
modelled as abstract natural numbers; `f64` end-time offsets are modelled
as integers (the code only ever compares them, never computes with them,
so any linear order is a faithful model of the non-NaN fragment).
-/

namespace SoniLive

/-- Character-level length of a string, modelling Rust `str::len` on the
ASCII fragment (Rust counts UTF-8 bytes). -/
def strLen (s : String) : Nat := s.data.length

/-- First `n` characters, modelling `&s[..n]` / `split_at(n).0` on ASCII. -/
def strTake (s : String) (n : Nat) : String := ⟨s.data.take n⟩

/-- All but the first `n` characters, modelling `&s[n..]` /
`String::drain(..n)` on ASCII. -/
def strDrop (s : String) (n : Nat) : String := ⟨s.data.drop n⟩

/-- Rust `str::starts_with` (string pattern). -/
def strStartsWith (s p : String) : Bool := p.data.isPrefixOf s.data

/-- Rust `String::push_str` / `+`. -/
def strAppend (a b : String) : String := ⟨a.data ++ b.data⟩

/-- Rust `String::push`. -/
def strPush (s : String) (c : Char) : String := ⟨s.data ++ [c]⟩

/-- `p` occurs as a contiguous sublist of `l`. -/
def listInfix (p l : List Char) : Bool :=
  (List.range (l.length + 1)).any (fun i => p.isPrefixOf (l.drop i))

/-- Rust `str::contains` with a string pattern (substring test). -/
def strContains (s p : String) : Bool := listInfix p.data s.data

/-- Rust `s.ends_with(char::is_whitespace)`. -/
def endsWithWS (s : String) : Bool :=
  match s.data.getLast? with
  | some c => c.isWhitespace
  | none => false

/-- Rust `s.starts_with(char::is_whitespace)`. -/
def startsWithWS (s : String) : Bool :=
  match s.data.head? with
  | some c => c.isWhitespace
  | none => false

/-- Sentence terminator characters used by the block manager. -/
def isTerminator (c : Char) : Bool := c = '.' || c = '?' || c = '!'

/-- Rust `s.trim_end().ends_with(|c| c == '.' || c == '?' || c == '!')`:
the last non-whitespace character is a sentence terminator. -/
def endsSentence (s : String) : Bool :=
  match (s.data.reverse.dropWhile Char.isWhitespace).head? with
  | some c => isTerminator c
  | none => false

/-- One recognized token, from `SonioxTranscriptionToken` in
`src/types/soniox.rs` (fields the engine never reads are omitted;
`end_ms : Option<f64>` is modelled with `Int`). -/
structure SonioxTranscriptionToken where
  text : String
  end_ms : Option Int
  is_final : Bool
  speaker : Option String
  translation_status : Option String
deriving DecidableEq

/-- One update from the recognition service, from
`SonioxTranscriptionResponse` in `src/types/soniox.rs`. -/
structure SonioxTranscriptionResponse where
  tokens : List SonioxTranscriptionToken
deriving DecidableEq

/-- A display block, from `AudioSubtitle` in `src/types/audio.rs`
(the `last_update : Instant` timer is externalized: every operation that
reads it takes the elapsed-test result as an explicit argument). -/
structure AudioSubtitle where
  speaker : Option String
  text : String
  displayed_text : String
deriving DecidableEq

namespace AudioSubtitle

/-- `AudioSubtitle::new`. -/
def mk_new (speaker : Option String) (text : String) : AudioSubtitle :=
  { speaker := speaker, text := text, displayed_text := "" }

/-- `AudioSubtitle::new_complete`. -/
def new_complete (speaker : Option String) (text : String) : AudioSubtitle :=
  { speaker := speaker, text := text, displayed_text := text }

/-- `AudioSubtitle::default`. -/
def default_sub : AudioSubtitle :=
  { speaker := none,
    text := "... waiting for the sound ...",
    displayed_text := "... waiting for the sound ..." }

/-- `AudioSubtitle::update_animation` from `src/types/audio.rs`.
`timer_elapsed` stands for `self.last_update.elapsed() > 20ms`.
Returns the updated block and the `changed` flag. -/
def update_animation (s : AudioSubtitle) (ignore_timer timer_elapsed : Bool) :
    AudioSubtitle × Bool :=
  if strLen s.displayed_text ≥ strLen s.text then
    if strLen s.displayed_text > strLen s.text then
      ({ s with displayed_text := s.text }, true)
    else (s, false)
  else if ignore_timer || timer_elapsed then
    match s.text.data.get? (strLen s.displayed_text) with
    | some c => ({ s with displayed_text := strPush s.displayed_text c }, true)
    | none => (s, false)
  else (s, false)

end AudioSubtitle

/-- The engine state, from `TranscriptionState` in `src/soniox/state.rs`.
`finishes_lines` keeps the Rust `VecDeque` orientation: the list head is
the deque front (the newest committed block), the last element is the
back (the oldest, the one evicted first).  The `debug_log` ring buffer is
purely observational and omitted.  `last_final_ms` is the
highest-confirmed end-time field read and written by the mode
`process_event` implementations. -/
structure TranscriptionState where
  finishes_lines : List AudioSubtitle
  interim_line : AudioSubtitle
  max_lines : Nat
  max_chars_in_block : Nat
  frozen_interim_history : String
  frozen_blocks_count : Nat
  event_queue : List (Nat × SonioxTranscriptionResponse)
  smart_delay_ms : Nat
  last_final_ms : Int
deriving DecidableEq

namespace TranscriptionState

/-- `TranscriptionState::new` (the Rust constructor asserts
`max_lines > 0`; theorems that need it carry the hypothesis). -/
def new (max_lines max_chars_in_block : Nat) : TranscriptionState :=
  { finishes_lines := []
    interim_line := AudioSubtitle.default_sub
    max_lines := max_lines
    max_chars_in_block := max_chars_in_block
    frozen_interim_history := ""
    frozen_blocks_count := 0
    event_queue := []
    smart_delay_ms := 0
    last_final_ms := 0 }

/-- `TranscriptionState::iter`:
`std::iter::once(&self.interim_line).chain(&self.finishes_lines)` —
the interim line first, then committed blocks front-to-back
(newest committed first). -/
def iterBlocks (st : TranscriptionState) : List AudioSubtitle :=
  st.interim_line :: st.finishes_lines

end TranscriptionState

/-- The forced-split index of `push_final` in `src/soniox/state.rs`
(lines 334-345): the last whitespace at index `≤ limit`, else the first
whitespace at index in `(limit, limit+10)`, else `limit.min(text.len())`
(character-level model). -/
def forcedSplitIdx (text : String) (limit : Nat) : Nat :=
  let a := (((text.data.enum.filter
      (fun p => decide (p.1 ≤ limit) && p.2.isWhitespace)).map Prod.fst).getLast?)
  let b := (((text.data.enum.filter
      (fun p => decide (limit < p.1 ∧ p.1 < limit + 10) && p.2.isWhitespace)).map Prod.fst).head?)
  (a <|> b).getD (min limit (strLen text))

/-- The eviction step at the end of each `push_final` loop iteration:
`if self.finishes_lines.len() > self.max_lines - 1 { self.finishes_lines.pop_back(); }`
— the back of the deque (the oldest committed block) is dropped. -/
def evictOldest (maxLines : Nat) (lines : List AudioSubtitle) : List AudioSubtitle :=
  if lines.length > maxLines - 1 then lines.dropLast else lines

/-- The merge arm of `push_final`: append the chunk to the front block,
inserting one space when neither side already has whitespace at the join;
with `instant` the revealed text snaps to the full text. -/
def mergeChunk (last : AudioSubtitle) (chunk : String) (instant : Bool) : AudioSubtitle :=
  let t :=
    if !endsWithWS last.text && !startsWithWS chunk then strPush last.text ' ' else last.text
  let t := strAppend t chunk
  { last with text := t, displayed_text := if instant then t else last.displayed_text }

/-- The `should_start_new` decision of `push_final` (state.rs lines
355-397): start a new block when there is no front block, when the
combined length overflows `max_chars + 15` and the join is not mid-word,
or when the front block ends with sentence punctuation. -/
def shouldStartNew (maxChars : Nat) (front : Option AudioSubtitle) (chunk : String) : Bool :=
  match front with
  | some last =>
    let ends_sentence := endsSentence last.text
    let is_continuation :=
      !(last.text = "") && !endsWithWS last.text && !startsWithWS chunk
    if strLen last.text + strLen chunk > maxChars + 15 then
      if is_continuation then false else true
    else if ends_sentence then true
    else false
  | none => true

/-- The block-construction arm of `push_final`: a fresh `AudioSubtitle`
whose revealed text is the full text when `instant` is set. -/
def newBlock (speaker : Option String) (chunk : String) (instant : Bool) : AudioSubtitle :=
  let sub := AudioSubtitle.mk_new speaker chunk
  if instant then { sub with displayed_text := sub.text } else sub

/-- The chunk/remainder computation at the head of each `push_final`
loop iteration (state.rs lines 324-352), character-level: text longer
than `max_chars + 15` is force-split at `forcedSplitIdx`. -/
def pushFinalChunkSplit (maxChars : Nat) (text : String) : String × Option String :=
  if strLen text > maxChars then
    if strLen text ≤ maxChars + 15 then (text, none)
    else
      let idx := forcedSplitIdx text maxChars
      (strTake text idx, some (strDrop text idx))
  else (text, none)

/-- The merge-or-new-block decision applied to one chunk (state.rs lines
354-416). -/
def pushFinalStep (maxChars : Nat) (speaker : Option String) (instant : Bool)
    (chunk : String) (lines : List AudioSubtitle) (added : Nat) :
    List AudioSubtitle × Nat :=
  if shouldStartNew maxChars lines.head? chunk then
    (newBlock speaker chunk instant :: lines, added + 1)
  else
    match lines with
    | last :: rest => (mergeChunk last chunk instant :: rest, added)
    | [] => (lines, added)

/-- The loop body of `TranscriptionState::push_final` (state.rs lines
313-430), fuel-indexed (in the source each productive iteration strictly
shortens the text except on a degenerate zero-length split, where the
source loops forever and the model stops).  Returns the updated block
list (front = newest) and the number of new blocks created. -/
def pushFinalGo (maxLines maxChars : Nat) (speaker : Option String) (instant : Bool) :
    Nat → String → List AudioSubtitle → Nat → List AudioSubtitle × Nat
  | 0, _, lines, added => (lines, added)
  | fuel + 1, text, lines, added =>
    if text = "" then (lines, added)
    else
      let cr := pushFinalChunkSplit maxChars text
      let step := pushFinalStep maxChars speaker instant cr.1 lines added
      let lines2 := evictOldest maxLines step.1
      match cr.2 with
      | some r => pushFinalGo maxLines maxChars speaker instant fuel r lines2 step.2
      | none => (lines2, step.2)

/-- `TranscriptionState::push_final` acting on the block list. -/
def pushFinalLines (maxLines maxChars : Nat) (speaker : Option String)
    (instant : Bool) (text : String) (lines : List AudioSubtitle) :
    List AudioSubtitle × Nat :=
  pushFinalGo maxLines maxChars speaker instant (strLen text + 1) text lines 0

/-- `TranscriptionState::push_final` acting on the whole state. -/
def pushFinal (st : TranscriptionState) (speaker : Option String)
    (text : String) (instant : Bool) : TranscriptionState × Nat :=
  let r := pushFinalLines st.max_lines st.max_chars_in_block speaker instant text
    st.finishes_lines
  ({ st with finishes_lines := r.1 }, r.2)

/-- `TranscriptionState::update_interim` (state.rs lines 432-453): when
the front committed block carries the same speaker, the interim line is
rebuilt fully revealed with no speaker; otherwise only its speaker and
target text are overwritten (the revealed text is kept). -/
def updateInterim (st : TranscriptionState) (speaker : Option String)
    (text : String) : TranscriptionState :=
  match st.finishes_lines.head? with
  | some last =>
    if last.speaker = speaker then
      { st with interim_line := AudioSubtitle.new_complete none text }
    else
      { st with interim_line := { st.interim_line with speaker := speaker, text := text } }
  | none =>
      { st with interim_line := { st.interim_line with speaker := speaker, text := text } }

/-- Accumulator of the token-classification loops at the head of
`process_transcription_event` / the mode `process_event`s. -/
structure ClassifyAcc where
  full_interim_text : String
  interim_speaker : Option String
  final_text_segment : String
  final_speaker : Option String
  has_final : Bool
  max_ms : Int
deriving DecidableEq

/-- Initial accumulator; `max_ms` starts at `state.last_final_ms`. -/
def ClassifyAcc.init (last : Int) : ClassifyAcc :=
  { full_interim_text := "", interim_speaker := none, final_text_segment := ""
    final_speaker := none, has_final := false, max_ms := last }

/-- One token of the classification loop of
`TranscriptionState::process_transcription_event` (state.rs lines
154-176): tokens tagged `"original"` are skipped, final tokens accumulate
into the final segment, the rest into the interim text. -/
def stateClassifyStep (acc : ClassifyAcc) (t : SonioxTranscriptionToken) : ClassifyAcc :=
  if t.translation_status = some "original" then acc
  else if t.is_final then
    { acc with final_speaker := t.speaker
               final_text_segment := strAppend acc.final_text_segment t.text
               has_final := true }
  else
    { acc with interim_speaker :=
                 if acc.interim_speaker ≠ t.speaker then t.speaker else acc.interim_speaker
               full_interim_text := strAppend acc.full_interim_text t.text }

/-- The classification loop of `process_transcription_event`. -/
def stateClassify (tokens : List SonioxTranscriptionToken) : ClassifyAcc :=
  tokens.foldl stateClassifyStep (ClassifyAcc.init 0)

/-- The three-way reconciliation of newly finalized text against Frozen
History, common to `process_transcription_event` (state.rs lines 178-219)
and the mode `process_event`s (transcribe_mode.rs lines 116-134,
translate_mode.rs lines 119-140); they differ only in the `instant` flag
passed to `push_final`. -/
def reconcileFinal (st : TranscriptionState) (final_speaker : Option String)
    (final_text : String) (instant : Bool) : TranscriptionState :=
  if strStartsWith final_text st.frozen_interim_history then
    let text_to_push := strDrop final_text (strLen st.frozen_interim_history)
    let st1 := (pushFinal st final_speaker text_to_push instant).1
    { st1 with frozen_blocks_count := 0, frozen_interim_history := "" }
  else if strStartsWith st.frozen_interim_history final_text then
    { st with frozen_interim_history :=
        strDrop st.frozen_interim_history (strLen final_text) }
  else
    let st0 := { st with finishes_lines := st.finishes_lines.drop st.frozen_blocks_count }
    let st1 := (pushFinal st0 final_speaker final_text instant).1
    { st1 with frozen_blocks_count := 0, frozen_interim_history := "" }

/-- The sentence-split search of `process_transcription_event` (state.rs
lines 250-258): the first character index `i < limit` holding `.`, `?` or
`!` immediately followed by whitespace, returned as `i + 1`. -/
def sentenceSplitIdx (s : String) (limit : Nat) : Option Nat :=
  (((s.data.enum.zip (s.data.drop 1)).filter
      (fun p => decide (p.1.1 < limit) && isTerminator p.1.2 && p.2.isWhitespace)).map
      (fun p => p.1.1 + 1)).head?

/-- The overflow-split search of `process_transcription_event` (state.rs
lines 277-280): the first whitespace at character index `≥ limit`. -/
def overflowSplitIdx (s : String) (limit : Nat) : Option Nat :=
  ((s.data.enum.filter (fun p => decide (limit ≤ p.1) && p.2.isWhitespace)).map
    Prod.fst).head?

/-- The speculative-freeze step shared by the sentence and overflow arms
of `process_transcription_event` (state.rs lines 260-295): extend Frozen
History by the frozen chunk, commit it, raise the speculative counter by
the number of blocks created, and show the remaining tail as interim. -/
def freezeInterimChunk (st : TranscriptionState) (speaker : Option String)
    (idx : Nat) (effective : String) : TranscriptionState :=
  let frozen := strTake effective idx
  let remainder := strDrop effective idx
  let st1 := { st with frozen_interim_history :=
                 strAppend st.frozen_interim_history frozen }
  let pr := pushFinal st1 speaker frozen true
  let st3 := { pr.1 with frozen_blocks_count := pr.1.frozen_blocks_count + pr.2 }
  updateInterim st3 speaker remainder

/-- The interim drift-check on entry to the interim section of
`process_transcription_event` (state.rs lines 227-237): when the full
interim text no longer starts with Frozen History, the speculative
blocks are popped from the front and the history state reset. -/
def driftCheck (full_interim : String) (st1 : TranscriptionState) : TranscriptionState :=
  if !strStartsWith full_interim st1.frozen_interim_history then
    { st1 with finishes_lines := st1.finishes_lines.drop st1.frozen_blocks_count
               frozen_blocks_count := 0, frozen_interim_history := "" }
  else st1

/-- The interim section of `process_transcription_event` (state.rs lines
225-309): drift-check, then sentence-freeze, overflow-freeze (safety
buffer 25) or plain interim update. -/
def interimPhase (acc : ClassifyAcc) (st1 : TranscriptionState) : TranscriptionState :=
  if acc.full_interim_text ≠ "" then
    let st2 := driftCheck acc.full_interim_text st1
    let effective := strDrop acc.full_interim_text (strLen st2.frozen_interim_history)
    let limit := st2.max_chars_in_block
    match sentenceSplitIdx effective limit with
    | some idx => freezeInterimChunk st2 acc.interim_speaker idx effective
    | none =>
      if strLen effective > limit + 25 then
        match overflowSplitIdx effective limit with
        | some idx => freezeInterimChunk st2 acc.interim_speaker idx effective
        | none => updateInterim st2 acc.interim_speaker effective
      else updateInterim st2 acc.interim_speaker effective
  else if acc.has_final then st1
  else updateInterim st1 acc.interim_speaker ""

/-- `TranscriptionState::process_transcription_event` (state.rs lines
146-310): classify the batch, reconcile any final text (then clear the
interim line), then run the interim section. -/
def processTranscriptionEvent (st : TranscriptionState)
    (resp : SonioxTranscriptionResponse) : TranscriptionState :=
  let acc := stateClassify resp.tokens
  let st1 :=
    if acc.has_final then
      updateInterim (reconcileFinal st acc.final_speaker acc.final_text_segment true)
        acc.interim_speaker ""
    else st
  interimPhase acc st1

/-- A batch has no final token (`!response.tokens.iter().any(|t| t.is_final)`). -/
def purelyInterim (resp : SonioxTranscriptionResponse) : Bool :=
  !(resp.tokens.any (fun t => t.is_final))

/-- The first token's speaker (`response.tokens.first().map(|t| &t.speaker)`). -/
def firstSpeaker (resp : SonioxTranscriptionResponse) : Option (Option String) :=
  resp.tokens.head?.map (fun t => t.speaker)

/-- `TranscriptionState::handle_transcription` (state.rs lines 107-144),
identical to `handle_incoming` of the two modes: a purely interim batch
replaces the still-pending purely interim back entry of the queue when
the first-token speakers agree (keeping that entry's timestamp);
otherwise the batch is appended at the back with the current instant. -/
def handleTranscription (st : TranscriptionState) (now : Nat)
    (resp : SonioxTranscriptionResponse) : TranscriptionState :=
  if purelyInterim resp then
    match st.event_queue.getLast? with
    | some last =>
      if purelyInterim last.2 && decide (firstSpeaker resp = firstSpeaker last.2) then
        { st with event_queue := st.event_queue.dropLast ++ [(last.1, resp)] }
      else
        { st with event_queue := st.event_queue ++ [(now, resp)] }
    | none => { st with event_queue := st.event_queue ++ [(now, resp)] }
  else
    { st with event_queue := st.event_queue ++ [(now, resp)] }

/-- An entry is due when its age reaches the smart delay
(`now.duration_since(timestamp) >= delay`). -/
def entryDue (delay now ts : Nat) : Bool := delay ≤ now - ts

/-- The loop of `TranscriptionState::process_pending_events` (state.rs
lines 50-62), fuel-indexed by the queue length: pop the front entry while
it is due and process it. -/
def processPendingGo (now : Nat) : Nat → TranscriptionState → TranscriptionState
  | 0, st => st
  | fuel + 1, st =>
    match st.event_queue with
    | [] => st
    | e :: rest =>
      if entryDue st.smart_delay_ms now e.1 then
        processPendingGo now fuel
          (processTranscriptionEvent { st with event_queue := rest } e.2)
      else st

/-- `TranscriptionState::process_pending_events`. -/
def processPendingEvents (st : TranscriptionState) (now : Nat) : TranscriptionState :=
  processPendingGo now st.event_queue.length st

/-- The same loop instrumented with the list of responses it processes,
in processing order (used to state the FIFO guarantee). -/
def processPendingGoTrace (now : Nat) :
    Nat → TranscriptionState → TranscriptionState × List SonioxTranscriptionResponse
  | 0, st => (st, [])
  | fuel + 1, st =>
    match st.event_queue with
    | [] => (st, [])
    | e :: rest =>
      if entryDue st.smart_delay_ms now e.1 then
        let r := processPendingGoTrace now fuel
          (processTranscriptionEvent { st with event_queue := rest } e.2)
        (r.1, e.2 :: r.2)
      else (st, [])

/-- `TranscriptionState::update_animation` (state.rs lines 64-81): drain
the pending queue, then animate the interim line and every committed
block front-to-back.  Per-block 20ms timers are supplied externally
(`interimTimer` for the interim line, `lineTimers.getD i false` for the
`i`-th committed block from the front). -/
def updateAnimationRs (st : TranscriptionState) (now : Nat)
    (interimTimer : Bool) (lineTimers : List Bool) : TranscriptionState :=
  let st := processPendingEvents st now
  let interim1 := (st.interim_line.update_animation false interimTimer).1
  let lines1 := st.finishes_lines.enum.map
    (fun p => (p.2.update_animation false (lineTimers.getD p.1 false)).1)
  { st with interim_line := interim1, finishes_lines := lines1 }

/-- One token of the classification loop of
`TranscribeMode::process_event` (transcribe_mode.rs lines 66-112):
original-tagged final tokens raise the running `max_ms`; every final
token is dropped when its `end_ms` is present and at most the
pre-batch `last_final_ms` (`last0`); surviving final tokens are retained
unless tagged original; interim tokens are always retained. -/
def transcribeClassifyStep (last0 : Int) (acc : ClassifyAcc)
    (t : SonioxTranscriptionToken) : ClassifyAcc :=
  let is_original := t.translation_status = some "original"
  let acc :=
    if is_original ∧ t.is_final then
      match t.end_ms with
      | some e => if e > acc.max_ms then { acc with max_ms := e } else acc
      | none => acc
    else acc
  if t.is_final then
    if (match t.end_ms with
        | some e => decide (e ≤ last0)
        | none => false) then acc
    else if is_original then acc
    else
      { acc with final_speaker := t.speaker
                 final_text_segment := strAppend acc.final_text_segment t.text
                 has_final := true }
  else
    { acc with interim_speaker :=
                 if acc.interim_speaker ≠ t.speaker then t.speaker else acc.interim_speaker
               full_interim_text := strAppend acc.full_interim_text t.text }

/-- The classification loop of `TranscribeMode::process_event`. -/
def transcribeClassify (last0 : Int) (tokens : List SonioxTranscriptionToken) :
    ClassifyAcc :=
  tokens.foldl (transcribeClassifyStep last0) (ClassifyAcc.init last0)

/-- One token of the classification loop of
`TranslateMode::process_event` (translate_mode.rs lines 69-115): tokens
containing `"<end>"` or not tagged `"translation"` are skipped entirely;
final tokens raise `max_ms` and are dropped when `end_ms` is present and
at most the pre-batch `last_final_ms`. -/
def translateClassifyStep (last0 : Int) (acc : ClassifyAcc)
    (t : SonioxTranscriptionToken) : ClassifyAcc :=
  if strContains t.text "<end>" then acc
  else if ¬ (t.translation_status = some "translation") then acc
  else
    let acc :=
      if t.is_final then
        match t.end_ms with
        | some e => if e > acc.max_ms then { acc with max_ms := e } else acc
        | none => acc
      else acc
    if t.is_final then
      if (match t.end_ms with
          | some e => decide (e ≤ last0)
          | none => false) then acc
      else
        { acc with final_speaker := t.speaker
                   final_text_segment := strAppend acc.final_text_segment t.text
                   has_final := true }
    else
      { acc with interim_speaker :=
                   if acc.interim_speaker ≠ t.speaker then t.speaker else acc.interim_speaker
                 full_interim_text := strAppend acc.full_interim_text t.text }

/-- The classification loop of `TranslateMode::process_event`. -/
def translateClassify (last0 : Int) (tokens : List SonioxTranscriptionToken) :
    ClassifyAcc :=
  tokens.foldl (translateClassifyStep last0) (ClassifyAcc.init last0)

/-- Modelled from the spec: `find_sentence_split`, called by the mode
`process_event`s (transcribe_mode.rs line 155, translate_mode.rs line
161), is declared in no source file under src.  Per the spec, the block
manager splits where "the remaining text contains an internal sentence
terminator (`.`, `?`, `!`) immediately followed by whitespace", the chunk
running "up to and including the terminator" — exactly the inline
sentence-split search of state.rs, reused here. -/
def find_sentence_split (s : String) (limit : Nat) : Option Nat :=
  sentenceSplitIdx s limit

/-- The speculative-freeze step of the mode `process_event`s
(transcribe_mode.rs lines 155-176): like `freezeInterimChunk` but with
`instant = false`, returning the tail destined for the interim line. -/
def modeFreezeChunk (st : TranscriptionState) (speaker : Option String)
    (idx : Nat) (effective : String) : TranscriptionState × String :=
  let frozen := strTake effective idx
  let remainder := strDrop effective idx
  let st1 := { st with frozen_interim_history :=
                 strAppend st.frozen_interim_history frozen }
  let pr := pushFinal st1 speaker frozen false
  ({ pr.1 with frozen_blocks_count := pr.1.frozen_blocks_count + pr.2 }, remainder)

/-- The shared body of `TranscribeMode::process_event` and
`TranslateMode::process_event` (transcribe_mode.rs lines 57-190,
translate_mode.rs lines 60-196, which differ only in their token
classification loops): classify, store the new `last_final_ms`,
reconcile any final text with `instant = false`, run the interim
drift-check and freeze logic with `split_limit = max(max_chars, 100)`
and slack `50`, and finally update the interim line once. -/
def modeProcessEvent (classify : Int → List SonioxTranscriptionToken → ClassifyAcc)
    (st : TranscriptionState) (resp : SonioxTranscriptionResponse) :
    TranscriptionState :=
  let acc := classify st.last_final_ms resp.tokens
  let st0 := { st with last_final_ms := acc.max_ms }
  let st1 :=
    if acc.has_final then
      reconcileFinal st0 acc.final_speaker acc.final_text_segment false
    else st0
  let out : TranscriptionState × String :=
    if acc.full_interim_text ≠ "" then
      let st2 :=
        if !strStartsWith acc.full_interim_text st1.frozen_interim_history then
          { st1 with finishes_lines := st1.finishes_lines.drop st1.frozen_blocks_count
                     frozen_blocks_count := 0, frozen_interim_history := "" }
        else st1
      let effective := strDrop acc.full_interim_text (strLen st2.frozen_interim_history)
      let split_limit := max st2.max_chars_in_block 100
      match find_sentence_split effective split_limit with
      | some idx => modeFreezeChunk st2 acc.interim_speaker idx effective
      | none =>
        if strLen effective > split_limit + 50 then
          match overflowSplitIdx effective split_limit with
          | some idx => modeFreezeChunk st2 acc.interim_speaker idx effective
          | none => (st2, effective)
        else (st2, effective)
    else (st1, "")
  updateInterim out.1 acc.interim_speaker out.2

/-- `TranscribeMode::process_event`. -/
def transcribeProcessEvent (st : TranscriptionState)
    (resp : SonioxTranscriptionResponse) : TranscriptionState :=
  modeProcessEvent transcribeClassify st resp

/-- `TranslateMode::process_event`. -/
def translateProcessEvent (st : TranscriptionState)
    (resp : SonioxTranscriptionResponse) : TranscriptionState :=
  modeProcessEvent translateClassify st resp

/-- Modelled from the spec: the mode-aware animation tick
`update_animation(mode)` called at gui/app.rs line 155 is declared in no
source file under src (state.rs lines 64-81 hold a stale zero-argument
revision whose calls into `AudioSubtitle::update_animation` do not match
that function's arity).  Per spec section 4.5: committed blocks are
animated from oldest to newest, and if any committed block still has
unrevealed text the interim line is not animated this tick.
`lineTimersOldestFirst.getD i false` supplies the 20ms-timer test of the
`i`-th committed block counted from the oldest. -/
def tickAnimationSpec (st : TranscriptionState)
    (lineTimersOldestFirst : List Bool) (interimTimer : Bool) :
    TranscriptionState :=
  let oldestFirst := st.finishes_lines.reverse
  let advanced := oldestFirst.enum.map
    (fun p => (p.2.update_animation false (lineTimersOldestFirst.getD p.1 false)).1)
  let anyPending := advanced.any (fun b => strLen b.displayed_text < strLen b.text)
  let newInterim :=
    if anyPending then st.interim_line
    else (st.interim_line.update_animation false interimTimer).1
  { st with finishes_lines := advanced.reverse, interim_line := newInterim }

/-- UTF-8 encoded length of a scalar value, in bytes. -/
def utf8Len (c : Char) : Nat :=
  if c.toNat < 128 then 1
  else if c.toNat < 2048 then 2
  else if c.toNat < 65536 then 3
  else 4

/-- Rust `str::len`: the UTF-8 byte length. -/
def strByteLen (s : String) : Nat := (s.data.map utf8Len).sum

/-- Helper for `byteIndices`: pair every character with its byte offset. -/
def byteIdxGo : Nat → List Char → List (Nat × Char)
  | _, [] => []
  | i, c :: cs => (i, c) :: byteIdxGo (i + utf8Len c) cs

/-- Rust `str::char_indices`: characters with their UTF-8 byte offsets. -/
def byteIndices (s : String) : List (Nat × Char) := byteIdxGo 0 s.data

/-- Rust `str::is_char_boundary`. -/
def isCharBoundary (s : String) (i : Nat) : Bool :=
  i = strByteLen s || (byteIndices s).any (fun p => p.1 = i)

/-- Rust `str::split_at`: defined only on character boundaries; off a
boundary the Rust call panics, modelled as `none`. -/
def splitAtByte (s : String) (i : Nat) : Option (String × String) :=
  if isCharBoundary s i then
    some (⟨((byteIndices s).filter (fun p => decide (p.1 < i))).map Prod.snd⟩,
          ⟨((byteIndices s).filter (fun p => decide (i ≤ p.1))).map Prod.snd⟩)
  else none

/-- The forced-split index of `push_final` with true byte offsets
(state.rs lines 334-345): last whitespace at byte offset `≤ limit`, else
first whitespace at byte offset in `(limit, limit+10)`, else the fallback
`limit.min(text.len())` — the fallback is an arbitrary byte offset. -/
def forcedSplitIdxBytes (text : String) (limit : Nat) : Nat :=
  let a := (((byteIndices text).filter
      (fun p => decide (p.1 ≤ limit) && p.2.isWhitespace)).map Prod.fst).getLast?
  let b := (((byteIndices text).filter
      (fun p => decide (limit < p.1 ∧ p.1 < limit + 10) && p.2.isWhitespace)).map Prod.fst).head?
  (a <|> b).getD (min limit (strByteLen text))

/-- The chunk/remainder computation at the head of each `push_final`
loop iteration (state.rs lines 324-352), byte-faithful: `none` models the
`split_at` panic on a non-boundary index. -/
def pushFinalChunkBytes (text : String) (maxChars : Nat) :
    Option (String × Option String) :=
  if strByteLen text > maxChars then
    if strByteLen text ≤ maxChars + 15 then some (text, none)
    else
      match splitAtByte text (forcedSplitIdxBytes text maxChars) with
      | some cr => some (cr.1, some cr.2)
      | none => none
  else some (text, none)

/-- The operations an owning application performs on the engine:
batch ingestion (`handle_transcription` / the modes' `handle_incoming`),
the animation tick (`update_animation`, which drains the pending queue
first), and the two configuration setters. -/
inductive EngineOp where
  | ingest (now : Nat) (resp : SonioxTranscriptionResponse)
  | tick (now : Nat) (interimTimer : Bool) (lineTimers : List Bool)
  | setMaxChars (n : Nat)
  | setSmartDelay (d : Nat)

/-- Apply one operation. -/
def applyOp (st : TranscriptionState) : EngineOp → TranscriptionState
  | .ingest now resp => handleTranscription st now resp
  | .tick now it lt => updateAnimationRs st now it lt
  | .setMaxChars n => { st with max_chars_in_block := n }
  | .setSmartDelay d => { st with smart_delay_ms := d }

/-- Apply a sequence of operations in order. -/
def applyOps (st : TranscriptionState) (ops : List EngineOp) : TranscriptionState :=
  ops.foldl applyOp st

/-! Concrete inputs used by witnesses and counterexamples. -/

/-- A plain untagged final token. -/
def finalTok (txt : String) : SonioxTranscriptionToken :=
  { text := txt, end_ms := none, is_final := true, speaker := some "A"
    translation_status := none }

/-- The spec scenario's original-language final token. -/
def bonjourTok : SonioxTranscriptionToken :=
  { text := "bonjour", end_ms := none, is_final := true, speaker := none
    translation_status := some "original" }

/-- The spec scenario's translated final token. -/
def helloTok : SonioxTranscriptionToken :=
  { text := "hello", end_ms := none, is_final := true, speaker := none
    translation_status := some "translation" }

/-- A state holding one speculative block frozen from the interim text
"The caT sat" (spec backtrack scenario). -/
def backtrackState : TranscriptionState :=
  { TranscriptionState.new 5 200 with
    finishes_lines := [AudioSubtitle.new_complete (some "A") "The caT sat"]
    frozen_interim_history := "The caT sat"
    frozen_blocks_count := 1 }

/-- A state holding one speculative block frozen from "Hello". -/
def extensionState : TranscriptionState :=
  { TranscriptionState.new 5 200 with
    finishes_lines := [AudioSubtitle.new_complete (some "A") "Hello"]
    frozen_interim_history := "Hello"
    frozen_blocks_count := 1 }

/-- A state whose Frozen History runs ahead of what the service has
finalized. -/
def absorptionState : TranscriptionState :=
  { TranscriptionState.new 5 200 with
    frozen_interim_history := "Hello there friend"
    frozen_blocks_count := 2 }

/-- Two distinct committed blocks plus an interim line, for the
iteration-order counterexample. -/
def iterState : TranscriptionState :=
  { TranscriptionState.new 5 200 with
    finishes_lines := [AudioSubtitle.new_complete none "newest."
                     , AudioSubtitle.new_complete none "oldest."]
    interim_line := AudioSubtitle.new_complete none "interim" }

/-- A state whose single committed block still has unrevealed text while
the interim line is also mid-reveal. -/
def animState : TranscriptionState :=
  { TranscriptionState.new 5 200 with
    finishes_lines := [{ speaker := none, text := "abc", displayed_text := "a" }]
    interim_line := { speaker := none, text := "xyz", displayed_text := "" } }

/-- Fourteen copies of the two-byte scalar U+00E9: a whitespace-free
chunk whose forced split index falls inside a character. -/
def eAcute14 : String := "éééééééééééééé"

/-- A final token whose end-time offset (3) regresses behind an already
confirmed offset (5). -/
def dupTok : SonioxTranscriptionToken :=
  { text := "dup", end_ms := some 3, is_final := true, speaker := none
    translation_status := none }

/-- A plain interim token from speaker A. -/
def interimTok (txt : String) : SonioxTranscriptionToken :=
  { text := txt, end_ms := none, is_final := false, speaker := some "A"
    translation_status := none }

/-- A state whose queue holds one pending purely interim batch. -/
def queueState : TranscriptionState :=
  { TranscriptionState.new 5 200 with
    event_queue := [(0, ⟨[interimTok "Hel"]⟩)] }

/-! Helper lemmas. -/

/-- `update_interim` touches only the interim line. -/
theorem updateInterim_fields (st : TranscriptionState) (sp : Option String)
    (text : String) :
    (updateInterim st sp text).finishes_lines = st.finishes_lines ∧
    (updateInterim st sp text).frozen_interim_history = st.frozen_interim_history ∧
    (updateInterim st sp text).frozen_blocks_count = st.frozen_blocks_count ∧
    (updateInterim st sp text).max_lines = st.max_lines ∧
    (updateInterim st sp text).max_chars_in_block = st.max_chars_in_block ∧
    (updateInterim st sp text).event_queue = st.event_queue ∧
    (updateInterim st sp text).smart_delay_ms = st.smart_delay_ms ∧
    (updateInterim st sp text).last_final_ms = st.last_final_ms := by
  unfold updateInterim
  cases st.finishes_lines.head? with
  | none => simp
  | some last =>
    by_cases h : last.speaker = sp <;> simp [h]

/-- `update_interim` keeps the committed blocks. -/
theorem updateInterim_lines (st : TranscriptionState) (sp : Option String) (t : String) :
    (updateInterim st sp t).finishes_lines = st.finishes_lines :=
  (updateInterim_fields st sp t).1

/-- `update_interim` keeps Frozen History. -/
theorem updateInterim_hist (st : TranscriptionState) (sp : Option String) (t : String) :
    (updateInterim st sp t).frozen_interim_history = st.frozen_interim_history :=
  (updateInterim_fields st sp t).2.1

/-- `update_interim` keeps the speculative counter. -/
theorem updateInterim_cnt (st : TranscriptionState) (sp : Option String) (t : String) :
    (updateInterim st sp t).frozen_blocks_count = st.frozen_blocks_count :=
  (updateInterim_fields st sp t).2.2.1

/-- `update_interim` keeps `max_lines`. -/
theorem updateInterim_ml (st : TranscriptionState) (sp : Option String) (t : String) :
    (updateInterim st sp t).max_lines = st.max_lines :=
  (updateInterim_fields st sp t).2.2.2.1

/-- `update_interim` keeps `max_chars_in_block`. -/
theorem updateInterim_mc (st : TranscriptionState) (sp : Option String) (t : String) :
    (updateInterim st sp t).max_chars_in_block = st.max_chars_in_block :=
  (updateInterim_fields st sp t).2.2.2.2.1

/-- `update_interim` keeps the event queue. -/
theorem updateInterim_q (st : TranscriptionState) (sp : Option String) (t : String) :
    (updateInterim st sp t).event_queue = st.event_queue :=
  (updateInterim_fields st sp t).2.2.2.2.2.1

/-- `update_interim` keeps the smart delay. -/
theorem updateInterim_d (st : TranscriptionState) (sp : Option String) (t : String) :
    (updateInterim st sp t).smart_delay_ms = st.smart_delay_ms :=
  (updateInterim_fields st sp t).2.2.2.2.2.2.1

/-- `update_interim` keeps `last_final_ms`. -/
theorem updateInterim_lf (st : TranscriptionState) (sp : Option String) (t : String) :
    (updateInterim st sp t).last_final_ms = st.last_final_ms :=
  (updateInterim_fields st sp t).2.2.2.2.2.2.2

/-- Reconciliation touches only blocks, history and counter. -/
theorem reconcileFinal_cfg (st : TranscriptionState) (sp : Option String)
    (f : String) (inst : Bool) :
    (reconcileFinal st sp f inst).max_lines = st.max_lines ∧
    (reconcileFinal st sp f inst).max_chars_in_block = st.max_chars_in_block ∧
    (reconcileFinal st sp f inst).event_queue = st.event_queue ∧
    (reconcileFinal st sp f inst).smart_delay_ms = st.smart_delay_ms ∧
    (reconcileFinal st sp f inst).last_final_ms = st.last_final_ms ∧
    (reconcileFinal st sp f inst).interim_line = st.interim_line := by
  unfold reconcileFinal
  cases h1 : strStartsWith f st.frozen_interim_history <;>
    cases h2 : strStartsWith st.frozen_interim_history f <;>
    simp [h1, h2, pushFinal]

/-- The drift-check touches only blocks, history and counter. -/
theorem driftCheck_cfg (full : String) (st : TranscriptionState) :
    (driftCheck full st).max_lines = st.max_lines ∧
    (driftCheck full st).max_chars_in_block = st.max_chars_in_block ∧
    (driftCheck full st).event_queue = st.event_queue ∧
    (driftCheck full st).smart_delay_ms = st.smart_delay_ms ∧
    (driftCheck full st).last_final_ms = st.last_final_ms ∧
    (driftCheck full st).interim_line = st.interim_line := by
  unfold driftCheck
  cases h : strStartsWith full st.frozen_interim_history <;> simp [h]

/-- The speculative freeze touches only blocks, history, counter and the
interim line. -/
theorem freezeInterimChunk_cfg (st : TranscriptionState) (sp : Option String)
    (idx : Nat) (eff : String) :
    (freezeInterimChunk st sp idx eff).max_lines = st.max_lines ∧
    (freezeInterimChunk st sp idx eff).max_chars_in_block = st.max_chars_in_block ∧
    (freezeInterimChunk st sp idx eff).event_queue = st.event_queue ∧
    (freezeInterimChunk st sp idx eff).smart_delay_ms = st.smart_delay_ms ∧
    (freezeInterimChunk st sp idx eff).last_final_ms = st.last_final_ms := by
  unfold freezeInterimChunk
  simp [pushFinal, updateInterim_ml, updateInterim_mc, updateInterim_q,
    updateInterim_d, updateInterim_lf]

/-- The interim section touches only blocks, history, counter and the
interim line. -/
theorem interimPhase_cfg (acc : ClassifyAcc) (st1 : TranscriptionState) :
    (interimPhase acc st1).max_lines = st1.max_lines ∧
    (interimPhase acc st1).max_chars_in_block = st1.max_chars_in_block ∧
    (interimPhase acc st1).event_queue = st1.event_queue ∧
    (interimPhase acc st1).smart_delay_ms = st1.smart_delay_ms ∧
    (interimPhase acc st1).last_final_ms = st1.last_final_ms := by
  have hd := driftCheck_cfg acc.full_interim_text st1
  refine ⟨?_, ?_, ?_, ?_, ?_⟩ <;>
  · simp only [interimPhase]
    repeat' split
    all_goals first
    | rfl
    | simp [updateInterim_ml, updateInterim_mc,
        updateInterim_q, updateInterim_d, updateInterim_lf,
        hd.1, hd.2.1, hd.2.2.1, hd.2.2.2.1, hd.2.2.2.2.1,
        (freezeInterimChunk_cfg _ _ _ _).1, (freezeInterimChunk_cfg _ _ _ _).2.1,
        (freezeInterimChunk_cfg _ _ _ _).2.2.1, (freezeInterimChunk_cfg _ _ _ _).2.2.2.1,
        (freezeInterimChunk_cfg _ _ _ _).2.2.2.2]

/-- `process_transcription_event` never changes `max_lines`,
`max_chars_in_block`, the queue, the smart delay or `last_final_ms`. -/
theorem processEvent_cfg (st : TranscriptionState) (resp : SonioxTranscriptionResponse) :
    (processTranscriptionEvent st resp).max_lines = st.max_lines ∧
    (processTranscriptionEvent st resp).max_chars_in_block = st.max_chars_in_block ∧
    (processTranscriptionEvent st resp).event_queue = st.event_queue ∧
    (processTranscriptionEvent st resp).smart_delay_ms = st.smart_delay_ms ∧
    (processTranscriptionEvent st resp).last_final_ms = st.last_final_ms := by
  unfold processTranscriptionEvent
  have hrc := reconcileFinal_cfg st (stateClassify resp.tokens).final_speaker
    (stateClassify resp.tokens).final_text_segment true
  cases h : (stateClassify resp.tokens).has_final <;>
    simp [h, interimPhase_cfg, updateInterim_ml, updateInterim_mc, updateInterim_q,
      updateInterim_d, updateInterim_lf,
      hrc.1, hrc.2.1, hrc.2.2.1, hrc.2.2.2.1, hrc.2.2.2.2.1]

/-- With a final-only batch (`has_final`, empty interim text), the
state.rs event processor is the reconciliation followed by clearing the
interim line. -/
theorem processEvent_final_only (st : TranscriptionState)
    (resp : SonioxTranscriptionResponse)
    (hacc : (stateClassify resp.tokens).has_final = true)
    (hif : (stateClassify resp.tokens).full_interim_text = "") :
    processTranscriptionEvent st resp =
      updateInterim
        (reconcileFinal st (stateClassify resp.tokens).final_speaker
          (stateClassify resp.tokens).final_text_segment true)
        (stateClassify resp.tokens).interim_speaker "" := by
  simp only [processTranscriptionEvent, interimPhase, hacc, hif, if_true, ne_eq,
    not_true_eq_false, if_false, ite_self]

/-- One transcribe-mode classification step never lowers `max_ms`. -/
theorem transcribeStep_max_mono (last0 : Int) (acc : ClassifyAcc)
    (t : SonioxTranscriptionToken) :
    acc.max_ms ≤ (transcribeClassifyStep last0 acc t).max_ms := by
  simp only [transcribeClassifyStep]
  repeat' split
  all_goals simp_all
  all_goals omega

/-- One translate-mode classification step never lowers `max_ms`. -/
theorem translateStep_max_mono (last0 : Int) (acc : ClassifyAcc)
    (t : SonioxTranscriptionToken) :
    acc.max_ms ≤ (translateClassifyStep last0 acc t).max_ms := by
  simp only [translateClassifyStep]
  repeat' split
  all_goals simp_all
  all_goals omega

/-- The transcribe-mode classification loop never lowers `max_ms`. -/
theorem transcribeFold_max_mono (last0 : Int) :
    ∀ (l : List SonioxTranscriptionToken) (acc : ClassifyAcc),
      acc.max_ms ≤ (l.foldl (transcribeClassifyStep last0) acc).max_ms := by
  intro l
  induction l with
  | nil => intro acc; exact le_refl _
  | cons t ts ih =>
    intro acc
    exact le_trans (transcribeStep_max_mono last0 acc t) (ih _)

/-- The translate-mode classification loop never lowers `max_ms`. -/
theorem translateFold_max_mono (last0 : Int) :
    ∀ (l : List SonioxTranscriptionToken) (acc : ClassifyAcc),
      acc.max_ms ≤ (l.foldl (translateClassifyStep last0) acc).max_ms := by
  intro l
  induction l with
  | nil => intro acc; exact le_refl _
  | cons t ts ih =>
    intro acc
    exact le_trans (translateStep_max_mono last0 acc t) (ih _)

/-- A final token with a regressed end-time is a no-op for the
transcribe-mode classification step. -/
theorem transcribeStep_dedup_skip (last0 : Int) (acc : ClassifyAcc)
    (t : SonioxTranscriptionToken) (e : Int)
    (hfin : t.is_final = true) (hms : t.end_ms = some e) (hle : e ≤ last0)
    (hinv : last0 ≤ acc.max_ms) :
    transcribeClassifyStep last0 acc t = acc := by
  simp only [transcribeClassifyStep, hfin, hms]
  have h1 : ¬ (e > acc.max_ms) := by omega
  have h2 : decide (e ≤ last0) = true := decide_eq_true hle
  simp [h1, h2]

/-- A final token with a regressed end-time is a no-op for the
translate-mode classification step. -/
theorem translateStep_dedup_skip (last0 : Int) (acc : ClassifyAcc)
    (t : SonioxTranscriptionToken) (e : Int)
    (hfin : t.is_final = true) (hms : t.end_ms = some e) (hle : e ≤ last0)
    (hinv : last0 ≤ acc.max_ms) :
    translateClassifyStep last0 acc t = acc := by
  simp only [translateClassifyStep, hfin, hms]
  have h1 : ¬ (e > acc.max_ms) := by omega
  have h2 : decide (e ≤ last0) = true := decide_eq_true hle
  by_cases hc : strContains t.text "<end>" <;>
    by_cases ht : t.translation_status = some "translation" <;>
    simp [hc, ht, h1, h2]

/-- A token not tagged `"translation"` is a no-op for the translate-mode
classification step. -/
theorem translateStep_skip_nontranslation (last0 : Int) (acc : ClassifyAcc)
    (t : SonioxTranscriptionToken)
    (ht : ¬ t.translation_status = some "translation") :
    translateClassifyStep last0 acc t = acc := by
  simp only [translateClassifyStep]
  by_cases hc : strContains t.text "<end>" <;> simp [hc, ht]

/-- `modeFreezeChunk` keeps `last_final_ms`. -/
theorem modeFreezeChunk_lf (st : TranscriptionState) (sp : Option String)
    (idx : Nat) (eff : String) :
    (modeFreezeChunk st sp idx eff).1.last_final_ms = st.last_final_ms := by
  simp [modeFreezeChunk, pushFinal]

/-- A mode `process_event` writes the classification's `max_ms` into
`last_final_ms`, and nothing downstream changes it. -/
theorem modeProcessEvent_lf
    (classify : Int → List SonioxTranscriptionToken → ClassifyAcc)
    (st : TranscriptionState) (resp : SonioxTranscriptionResponse) :
    (modeProcessEvent classify st resp).last_final_ms =
      (classify st.last_final_ms resp.tokens).max_ms := by
  simp only [modeProcessEvent]
  repeat' split
  all_goals first
  | rfl
  | simp [updateInterim_lf, modeFreezeChunk_lf, reconcileFinal_cfg]

/-- The pending-queue loop equals its trace-instrumented variant. -/
theorem processPendingGo_eq_trace (now : Nat) :
    ∀ (fuel : Nat) (st : TranscriptionState),
      processPendingGo now fuel st = (processPendingGoTrace now fuel st).1 := by
  intro fuel
  induction fuel with
  | zero => intro st; rfl
  | succ fuel ih =>
    intro st
    simp only [processPendingGo, processPendingGoTrace]
    cases hq : st.event_queue with
    | nil => rfl
    | cons e rest =>
      cases hd : entryDue st.smart_delay_ms now e.1 <;> simp [hd, ih]

/-- The pending-queue loop processes exactly the due prefix of the
queue, front first, and leaves the rest. -/
theorem processPendingGoTrace_spec (now : Nat) :
    ∀ (fuel : Nat) (st : TranscriptionState), st.event_queue.length = fuel →
      (processPendingGoTrace now fuel st).2 =
        (st.event_queue.takeWhile (fun e => entryDue st.smart_delay_ms now e.1)).map
          (fun e => e.2) ∧
      ((processPendingGoTrace now fuel st).1).event_queue =
        st.event_queue.dropWhile (fun e => entryDue st.smart_delay_ms now e.1) := by
  intro fuel
  induction fuel with
  | zero =>
    intro st hlen
    have hq : st.event_queue = [] := List.length_eq_zero.mp hlen
    simp [processPendingGoTrace, hq]
  | succ fuel ih =>
    intro st hlen
    cases hq : st.event_queue with
    | nil => simp [processPendingGoTrace, hq]
    | cons e rest =>
      rw [hq] at hlen
      simp only [List.length_cons, Nat.succ.injEq] at hlen
      cases hd : entryDue st.smart_delay_ms now e.1 with
      | false =>
        simp only [processPendingGoTrace, hq, hd]
        simp [List.takeWhile_cons, List.dropWhile_cons, hd, hq]
      | true =>
        have hih := ih (processTranscriptionEvent { st with event_queue := rest } e.2)
          (by simp [processEvent_cfg, hlen])
        simp only [processEvent_cfg] at hih
        simp only [processPendingGoTrace, hq, hd]
        simp only [List.takeWhile_cons, List.dropWhile_cons, hd]
        simp only [if_true]
        constructor
        · simpa using congrArg (List.cons e.2) hih.1
        · simpa using hih.2

/-- The eviction step keeps the block count at `max_lines - 1` whenever
it starts at most one above it. -/
theorem evictOldest_bound (m : Nat) (l : List AudioSubtitle)
    (h : l.length ≤ m - 1 + 1) : (evictOldest m l).length ≤ m - 1 := by
  unfold evictOldest
  split
  · rw [List.length_dropLast]
    omega
  · omega

/-- One merge-or-new-block step grows the block list by at most one. -/
theorem pushFinalStep_len (mc : Nat) (sp : Option String) (inst : Bool)
    (chunk : String) (lines : List AudioSubtitle) (n : Nat) :
    (pushFinalStep mc sp inst chunk lines n).1.length ≤ lines.length + 1 := by
  unfold pushFinalStep
  split
  · simp
  · split <;> simp_all

/-- The `push_final` loop keeps the block count within `max_lines - 1`. -/
theorem pushFinalGo_bound (m mc : Nat) (sp : Option String) (inst : Bool) :
    ∀ (fuel : Nat) (text : String) (lines : List AudioSubtitle) (n : Nat),
      lines.length ≤ m - 1 →
      ((pushFinalGo m mc sp inst fuel text lines n).1).length ≤ m - 1 := by
  intro fuel
  induction fuel with
  | zero =>
    intro text lines n h
    simpa [pushFinalGo] using h
  | succ fuel ih =>
    intro text lines n h
    simp only [pushFinalGo]
    split
    · simpa using h
    · have h2 : (evictOldest m
          (pushFinalStep mc sp inst (pushFinalChunkSplit mc text).1 lines n).1).length ≤
          m - 1 :=
        evictOldest_bound m _
          (le_trans (pushFinalStep_len mc sp inst _ lines n) (by omega))
      split
      · exact ih _ _ _ h2
      · simpa using h2

/-- `push_final` keeps the block count within `max_lines - 1`. -/
theorem pushFinalLines_bound (m mc : Nat) (sp : Option String) (inst : Bool)
    (text : String) (lines : List AudioSubtitle) (h : lines.length ≤ m - 1) :
    ((pushFinalLines m mc sp inst text lines).1).length ≤ m - 1 :=
  pushFinalGo_bound m mc sp inst _ text lines 0 h

/-- Reconciliation keeps the block count within `max_lines - 1`. -/
theorem reconcileFinal_bound (st : TranscriptionState) (sp : Option String)
    (f : String) (inst : Bool) (h : st.finishes_lines.length ≤ st.max_lines - 1) :
    (reconcileFinal st sp f inst).finishes_lines.length ≤ st.max_lines - 1 := by
  unfold reconcileFinal
  cases h1 : strStartsWith f st.frozen_interim_history <;>
    cases h2 : strStartsWith st.frozen_interim_history f <;>
    simp [h1, h2, pushFinal]
  all_goals first
  | exact h
  | exact pushFinalLines_bound _ _ _ _ _ _ h
  | exact pushFinalLines_bound _ _ _ _ _ _ (by rw [List.length_drop]; omega)

/-- The drift-check never grows the block list. -/
theorem driftCheck_len (full : String) (st : TranscriptionState) :
    (driftCheck full st).finishes_lines.length ≤ st.finishes_lines.length := by
  unfold driftCheck
  split <;> simp [List.length_drop]

/-- The speculative freeze keeps the block count within `max_lines - 1`. -/
theorem freezeInterimChunk_bound (st : TranscriptionState) (sp : Option String)
    (idx : Nat) (eff : String)
    (h : st.finishes_lines.length ≤ st.max_lines - 1) :
    (freezeInterimChunk st sp idx eff).finishes_lines.length ≤ st.max_lines - 1 := by
  unfold freezeInterimChunk
  simp [pushFinal, updateInterim_lines]
  exact pushFinalLines_bound _ _ _ _ _ _ h

/-- The interim section keeps the block count within `max_lines - 1`. -/
theorem interimPhase_bound (acc : ClassifyAcc) (st1 : TranscriptionState)
    (h : st1.finishes_lines.length ≤ st1.max_lines - 1) :
    (interimPhase acc st1).finishes_lines.length ≤ st1.max_lines - 1 := by
  have hml := (driftCheck_cfg acc.full_interim_text st1).1
  have hdc : (driftCheck acc.full_interim_text st1).finishes_lines.length ≤
      (driftCheck acc.full_interim_text st1).max_lines - 1 := by
    rw [hml]
    exact le_trans (driftCheck_len acc.full_interim_text st1) h
  have hfree : ∀ sp idx eff,
      (freezeInterimChunk (driftCheck acc.full_interim_text st1) sp idx
        eff).finishes_lines.length ≤ st1.max_lines - 1 := by
    intro sp idx eff
    have := freezeInterimChunk_bound (driftCheck acc.full_interim_text st1) sp idx eff hdc
    rwa [hml] at this
  have hupd : ∀ sp eff,
      (updateInterim (driftCheck acc.full_interim_text st1) sp
        eff).finishes_lines.length ≤ st1.max_lines - 1 := by
    intro sp eff
    rw [updateInterim_lines]
    have := hdc
    rwa [hml] at this
  have hupd1 : ∀ sp eff,
      (updateInterim st1 sp eff).finishes_lines.length ≤ st1.max_lines - 1 := by
    intro sp eff
    rw [updateInterim_lines]
    exact h
  simp only [interimPhase]
  repeat' split
  all_goals first
  | exact hfree _ _ _
  | exact hupd _ _
  | exact hupd1 _ _
  | exact h

/-- Event processing keeps the block count within `max_lines - 1`. -/
theorem processEvent_bound (st : TranscriptionState)
    (resp : SonioxTranscriptionResponse)
    (h : st.finishes_lines.length ≤ st.max_lines - 1) :
    (processTranscriptionEvent st resp).finishes_lines.length ≤ st.max_lines - 1 := by
  unfold processTranscriptionEvent
  cases hf : (stateClassify resp.tokens).has_final with
  | false =>
    simp only [hf, Bool.false_eq_true, if_false]
    exact interimPhase_bound _ _ h
  | true =>
    simp only [hf, if_true]
    have hrb := reconcileFinal_bound st (stateClassify resp.tokens).final_speaker
      (stateClassify resp.tokens).final_text_segment true h
    have hml := (reconcileFinal_cfg st (stateClassify resp.tokens).final_speaker
      (stateClassify resp.tokens).final_text_segment true).1
    have h1 : (updateInterim
        (reconcileFinal st (stateClassify resp.tokens).final_speaker
          (stateClassify resp.tokens).final_text_segment true)
        (stateClassify resp.tokens).interim_speaker "").finishes_lines.length ≤
        (updateInterim
          (reconcileFinal st (stateClassify resp.tokens).final_speaker
            (stateClassify resp.tokens).final_text_segment true)
          (stateClassify resp.tokens).interim_speaker "").max_lines - 1 := by
      rw [updateInterim_lines, updateInterim_ml, hml]
      exact hrb
    have h2 := interimPhase_bound (stateClassify resp.tokens) _ h1
    rwa [updateInterim_ml, hml] at h2

/-- Event processing preserves the invariant "block count within the
state's own `max_lines - 1`". -/
theorem processEvent_inv (st : TranscriptionState)
    (resp : SonioxTranscriptionResponse)
    (h : st.finishes_lines.length ≤ st.max_lines - 1) :
    (processTranscriptionEvent st resp).finishes_lines.length ≤
      (processTranscriptionEvent st resp).max_lines - 1 := by
  rw [(processEvent_cfg st resp).1]
  exact processEvent_bound st resp h

/-- The pending-queue loop preserves the block-count invariant. -/
theorem processPendingGo_inv (now : Nat) :
    ∀ (fuel : Nat) (st : TranscriptionState),
      st.finishes_lines.length ≤ st.max_lines - 1 →
      (processPendingGo now fuel st).finishes_lines.length ≤
        (processPendingGo now fuel st).max_lines - 1 := by
  intro fuel
  induction fuel with
  | zero =>
    intro st h
    simpa [processPendingGo] using h
  | succ fuel ih =>
    intro st h
    simp only [processPendingGo]
    split
    · exact h
    · split
      · exact ih _ (processEvent_inv _ _ (by simpa using h))
      · exact h

/-- The pending-queue loop preserves `max_lines`. -/
theorem processPendingGo_ml (now : Nat) :
    ∀ (fuel : Nat) (st : TranscriptionState),
      (processPendingGo now fuel st).max_lines = st.max_lines := by
  intro fuel
  induction fuel with
  | zero => intro st; rfl
  | succ fuel ih =>
    intro st
    simp only [processPendingGo]
    split
    · rfl
    · split
      · rw [ih, (processEvent_cfg _ _).1]
      · rfl

/-- The animation tick preserves the block-count invariant. -/
theorem updateAnimationRs_inv (st : TranscriptionState) (now : Nat)
    (it : Bool) (lt : List Bool)
    (h : st.finishes_lines.length ≤ st.max_lines - 1) :
    (updateAnimationRs st now it lt).finishes_lines.length ≤
      (updateAnimationRs st now it lt).max_lines - 1 := by
  unfold updateAnimationRs
  have hp := processPendingGo_inv now st.event_queue.length st h
  simpa [processPendingEvents] using hp

/-- The animation tick preserves `max_lines`. -/
theorem updateAnimationRs_ml (st : TranscriptionState) (now : Nat)
    (it : Bool) (lt : List Bool) :
    (updateAnimationRs st now it lt).max_lines = st.max_lines := by
  unfold updateAnimationRs
  simpa [processPendingEvents] using processPendingGo_ml now st.event_queue.length st

/-- Batch ingestion touches only the queue. -/
theorem handleTranscription_lines_ml (st : TranscriptionState) (now : Nat)
    (resp : SonioxTranscriptionResponse) :
    (handleTranscription st now resp).finishes_lines = st.finishes_lines ∧
    (handleTranscription st now resp).max_lines = st.max_lines := by
  unfold handleTranscription
  repeat' split
  all_goals simp

/-- Every engine operation preserves the block-count invariant. -/
theorem applyOp_inv (st : TranscriptionState) (op : EngineOp)
    (h : st.finishes_lines.length ≤ st.max_lines - 1) :
    (applyOp st op).finishes_lines.length ≤ (applyOp st op).max_lines - 1 := by
  cases op with
  | ingest now resp =>
    have hh := handleTranscription_lines_ml st now resp
    simpa [applyOp, hh.1, hh.2] using h
  | tick now it lt => exact updateAnimationRs_inv st now it lt h
  | setMaxChars n => simpa [applyOp] using h
  | setSmartDelay d => simpa [applyOp] using h

/-- Every engine operation preserves `max_lines`. -/
theorem applyOp_ml (st : TranscriptionState) (op : EngineOp) :
    (applyOp st op).max_lines = st.max_lines := by
  cases op with
  | ingest now resp => exact (handleTranscription_lines_ml st now resp).2
  | tick now it lt => exact updateAnimationRs_ml st now it lt
  | setMaxChars n => rfl
  | setSmartDelay d => rfl

/-- Operation sequences preserve the block-count invariant. -/
theorem applyOps_inv (ops : List EngineOp) :
    ∀ (st : TranscriptionState), st.finishes_lines.length ≤ st.max_lines - 1 →
      (applyOps st ops).finishes_lines.length ≤ (applyOps st ops).max_lines - 1 := by
  induction ops with
  | nil => intro st h; simpa [applyOps] using h
  | cons op ops ih =>
    intro st h
    exact ih (applyOp st op) (applyOp_inv st op h)

/-- Operation sequences preserve `max_lines`. -/
theorem applyOps_ml (ops : List EngineOp) :
    ∀ (st : TranscriptionState), (applyOps st ops).max_lines = st.max_lines := by
  induction ops with
  | nil => intro st; rfl
  | cons op ops ih =>
    intro st
    rw [show applyOps st (op :: ops) = applyOps (applyOp st op) ops from rfl,
      ih, applyOp_ml]

/-! Claim theorems. -/

/-- C1: when the non-empty finalized text and Frozen History are not
prefix-related in either direction, the reconciliation (in both its
`instant` variants, state.rs lines 202-219 and the mode files) drops
exactly `frozen_blocks_count` blocks from the front (newest end) of the
committed collection, commits the finalized text as a fresh authoritative
push, and zeroes Frozen History and the speculative counter; a processed
batch classifying to that final text (and no interim text) leaves the
engine in exactly that state. -/
theorem backtrack_discards_speculation_and_commits
    (st : TranscriptionState) (resp : SonioxTranscriptionResponse)
    (sp : Option String) (f : String)
    (h1 : strStartsWith f st.frozen_interim_history = false)
    (h2 : strStartsWith st.frozen_interim_history f = false)
    (hacc : (stateClassify resp.tokens).has_final = true)
    (hif : (stateClassify resp.tokens).full_interim_text = "")
    (hft : (stateClassify resp.tokens).final_text_segment = f)
    (hsp : (stateClassify resp.tokens).final_speaker = sp) :
    (∀ inst : Bool,
      (reconcileFinal st sp f inst).finishes_lines =
        (pushFinalLines st.max_lines st.max_chars_in_block sp inst f
          (st.finishes_lines.drop st.frozen_blocks_count)).1 ∧
      (reconcileFinal st sp f inst).frozen_interim_history = "" ∧
      (reconcileFinal st sp f inst).frozen_blocks_count = 0) ∧
    (st.finishes_lines.drop st.frozen_blocks_count).length =
      st.finishes_lines.length - st.frozen_blocks_count ∧
    (processTranscriptionEvent st resp).finishes_lines =
      (pushFinalLines st.max_lines st.max_chars_in_block sp true f
        (st.finishes_lines.drop st.frozen_blocks_count)).1 ∧
    (processTranscriptionEvent st resp).frozen_interim_history = "" ∧
    (processTranscriptionEvent st resp).frozen_blocks_count = 0 := by
  have hrec : ∀ inst : Bool,
      (reconcileFinal st sp f inst).finishes_lines =
        (pushFinalLines st.max_lines st.max_chars_in_block sp inst f
          (st.finishes_lines.drop st.frozen_blocks_count)).1 ∧
      (reconcileFinal st sp f inst).frozen_interim_history = "" ∧
      (reconcileFinal st sp f inst).frozen_blocks_count = 0 := by
    intro inst
    simp [reconcileFinal, h1, h2, pushFinal]
  have hpe := processEvent_final_only st resp hacc hif
  rw [hft, hsp] at hpe
  have hui := updateInterim_fields (reconcileFinal st sp f true)
    (stateClassify resp.tokens).interim_speaker ""
  refine ⟨hrec, List.length_drop _ _, ?_, ?_, ?_⟩
  · rw [hpe, hui.1]; exact (hrec true).1
  · rw [hpe, hui.2.1]; exact (hrec true).2.1
  · rw [hpe, hui.2.2.1]; exact (hrec true).2.2

/-- C1 witness: the spec's backtrack scenario — speculative state frozen
from interim "The caT sat", final batch "The cat sat down"; the single
speculative block is discarded, the final text committed, and the
committed text contains "cat" but not "caT". -/
theorem backtrack_discards_speculation_and_commits_witness :
    (strStartsWith "The cat sat down" backtrackState.frozen_interim_history = false ∧
     strStartsWith backtrackState.frozen_interim_history "The cat sat down" = false) ∧
    (processTranscriptionEvent backtrackState ⟨[finalTok "The cat sat down"]⟩).frozen_interim_history = "" ∧
    (processTranscriptionEvent backtrackState ⟨[finalTok "The cat sat down"]⟩).frozen_blocks_count = 0 ∧
    (processTranscriptionEvent backtrackState
        ⟨[finalTok "The cat sat down"]⟩).finishes_lines.map
      (fun b => b.text) = ["The cat sat down"] ∧
    ((processTranscriptionEvent backtrackState
        ⟨[finalTok "The cat sat down"]⟩).finishes_lines.all
      (fun b => !(strContains b.text "caT"))) = true ∧
    strContains "The cat sat down" "cat" = true := by
  have h := backtrack_discards_speculation_and_commits backtrackState
    ⟨[finalTok "The cat sat down"]⟩ (some "A") "The cat sat down"
    (by decide) (by decide) (by decide) (by decide) (by decide) (by decide)
  exact ⟨⟨by decide, by decide⟩, h.2.2.2.1, h.2.2.2.2, by decide, by decide, by decide⟩

/-- C2: when the finalized text starts with Frozen History, the only
text committed is the suffix beyond the shared prefix (both `instant`
variants, state.rs lines 180-189 and the mode files), and a processed
batch classifying to that final text (and no interim text) ends with
empty Frozen History and a zero speculative counter. -/
theorem extension_commits_only_suffix
    (st : TranscriptionState) (resp : SonioxTranscriptionResponse)
    (sp : Option String) (f : String)
    (h1 : strStartsWith f st.frozen_interim_history = true)
    (hacc : (stateClassify resp.tokens).has_final = true)
    (hif : (stateClassify resp.tokens).full_interim_text = "")
    (hft : (stateClassify resp.tokens).final_text_segment = f)
    (hsp : (stateClassify resp.tokens).final_speaker = sp) :
    (∀ inst : Bool,
      (reconcileFinal st sp f inst).finishes_lines =
        (pushFinalLines st.max_lines st.max_chars_in_block sp inst
          (strDrop f (strLen st.frozen_interim_history)) st.finishes_lines).1 ∧
      (reconcileFinal st sp f inst).frozen_interim_history = "" ∧
      (reconcileFinal st sp f inst).frozen_blocks_count = 0) ∧
    (processTranscriptionEvent st resp).finishes_lines =
      (pushFinalLines st.max_lines st.max_chars_in_block sp true
        (strDrop f (strLen st.frozen_interim_history)) st.finishes_lines).1 ∧
    (processTranscriptionEvent st resp).frozen_interim_history = "" ∧
    (processTranscriptionEvent st resp).frozen_blocks_count = 0 := by
  have hrec : ∀ inst : Bool,
      (reconcileFinal st sp f inst).finishes_lines =
        (pushFinalLines st.max_lines st.max_chars_in_block sp inst
          (strDrop f (strLen st.frozen_interim_history)) st.finishes_lines).1 ∧
      (reconcileFinal st sp f inst).frozen_interim_history = "" ∧
      (reconcileFinal st sp f inst).frozen_blocks_count = 0 := by
    intro inst
    simp [reconcileFinal, h1, pushFinal]
  have hpe := processEvent_final_only st resp hacc hif
  rw [hft, hsp] at hpe
  have hui := updateInterim_fields (reconcileFinal st sp f true)
    (stateClassify resp.tokens).interim_speaker ""
  refine ⟨hrec, ?_, ?_, ?_⟩
  · rw [hpe, hui.1]; exact (hrec true).1
  · rw [hpe, hui.2.1]; exact (hrec true).2.1
  · rw [hpe, hui.2.2.1]; exact (hrec true).2.2

/-- C2 witness: Frozen History "Hello", final batch "Hello there." — only
the suffix " there." is committed (merged into the already-shown block,
yielding "Hello there." exactly once), and history and counter clear. -/
theorem extension_commits_only_suffix_witness :
    (strStartsWith "Hello there." extensionState.frozen_interim_history = true) ∧
    (processTranscriptionEvent extensionState ⟨[finalTok "Hello there."]⟩).finishes_lines.map
      (fun b => b.text) = ["Hello there."] ∧
    (processTranscriptionEvent extensionState ⟨[finalTok "Hello there."]⟩).frozen_interim_history = "" ∧
    (processTranscriptionEvent extensionState ⟨[finalTok "Hello there."]⟩).frozen_blocks_count = 0 := by
  have h := extension_commits_only_suffix extensionState
    ⟨[finalTok "Hello there."]⟩ (some "A") "Hello there."
    (by decide) (by decide) (by decide) (by decide) (by decide)
  exact ⟨by decide, by decide, h.2.2.1, h.2.2.2⟩

/-- C3: when the finalized text is a proper prefix of Frozen History,
exactly its length is drained from the front of Frozen History, nothing
is committed (the block list is untouched), and the speculative counter
keeps its value (both `instant` variants, state.rs lines 190-201 and the
mode files); likewise for a processed batch classifying to that final
text with no interim text. -/
theorem absorption_drains_history_commits_nothing
    (st : TranscriptionState) (resp : SonioxTranscriptionResponse)
    (sp : Option String) (f : String)
    (h1 : strStartsWith f st.frozen_interim_history = false)
    (h2 : strStartsWith st.frozen_interim_history f = true)
    (hacc : (stateClassify resp.tokens).has_final = true)
    (hif : (stateClassify resp.tokens).full_interim_text = "")
    (hft : (stateClassify resp.tokens).final_text_segment = f)
    (hsp : (stateClassify resp.tokens).final_speaker = sp) :
    (∀ inst : Bool,
      reconcileFinal st sp f inst =
        { st with frozen_interim_history :=
            strDrop st.frozen_interim_history (strLen f) }) ∧
    (processTranscriptionEvent st resp).finishes_lines = st.finishes_lines ∧
    (processTranscriptionEvent st resp).frozen_interim_history =
      strDrop st.frozen_interim_history (strLen f) ∧
    (processTranscriptionEvent st resp).frozen_blocks_count =
      st.frozen_blocks_count := by
  have hrec : ∀ inst : Bool,
      reconcileFinal st sp f inst =
        { st with frozen_interim_history :=
            strDrop st.frozen_interim_history (strLen f) } := by
    intro inst
    simp [reconcileFinal, h1, h2]
  have hpe := processEvent_final_only st resp hacc hif
  rw [hft, hsp] at hpe
  have hui := updateInterim_fields (reconcileFinal st sp f true)
    (stateClassify resp.tokens).interim_speaker ""
  refine ⟨hrec, ?_, ?_, ?_⟩
  · rw [hpe, hui.1, hrec true]
  · rw [hpe, hui.2.1, hrec true]
  · rw [hpe, hui.2.2.1, hrec true]

/-- C3 witness: Frozen History "Hello there friend", final batch
"Hello " — six characters drain from the front of history, no block is
touched, and the counter keeps its value 2. -/
theorem absorption_drains_history_commits_nothing_witness :
    (strStartsWith "Hello " absorptionState.frozen_interim_history = false ∧
     strStartsWith absorptionState.frozen_interim_history "Hello " = true) ∧
    (processTranscriptionEvent absorptionState ⟨[finalTok "Hello "]⟩).finishes_lines = [] ∧
    (processTranscriptionEvent absorptionState ⟨[finalTok "Hello "]⟩).frozen_interim_history =
      "there friend" ∧
    (processTranscriptionEvent absorptionState ⟨[finalTok "Hello "]⟩).frozen_blocks_count = 2 := by
  have h := absorption_drains_history_commits_nothing absorptionState
    ⟨[finalTok "Hello "]⟩ (some "A") "Hello "
    (by decide) (by decide) (by decide) (by decide) (by decide) (by decide)
  refine ⟨⟨by decide, by decide⟩, ?_, ?_, ?_⟩
  · rw [h.2.1]; decide
  · rw [h.2.2.1]; decide
  · rw [h.2.2.2]; decide

/-- C4: starting from a construction with `max_lines ≥ 1` (the Rust
constructor asserts this), any sequence of ingested batches, animation
ticks and setter calls leaves at most `max_lines - 1` committed blocks,
and whenever a push leaves the collection above that bound the eviction
step removes exactly the back element — the oldest committed block. -/
theorem bounded_blocks_oldest_evicted (maxLines maxChars : Nat)
    (h : 1 ≤ maxLines) (ops : List EngineOp) :
    (applyOps (TranscriptionState.new maxLines maxChars) ops).finishes_lines.length ≤
      maxLines - 1 ∧
    (∀ l : List AudioSubtitle, maxLines - 1 < l.length →
      evictOldest maxLines l = l.dropLast) ∧
    (∀ l : List AudioSubtitle, l.length ≤ maxLines - 1 →
      evictOldest maxLines l = l) ∧
    (applyOps (TranscriptionState.new maxLines maxChars) ops).finishes_lines.length <
      maxLines := by
  have hbound : (applyOps (TranscriptionState.new maxLines maxChars)
      ops).finishes_lines.length ≤ maxLines - 1 := by
    have h0 : (TranscriptionState.new maxLines maxChars).finishes_lines.length ≤
        (TranscriptionState.new maxLines maxChars).max_lines - 1 := by
      simp [TranscriptionState.new]
    have hinv := applyOps_inv ops _ h0
    rwa [applyOps_ml ops (TranscriptionState.new maxLines maxChars)] at hinv
  refine ⟨hbound, ?_, ?_, by omega⟩
  · intro l hl
    simp [evictOldest, hl]
  · intro l hl
    simp only [evictOldest]
    rw [if_neg]
    omega

/-- C4 witness: with `max_lines = 3`, after ingesting four one-sentence
final batches and ticking, at most two committed blocks remain, and the
eviction step drops the oldest element of an over-full collection. -/
theorem bounded_blocks_oldest_evicted_witness :
    (1 ≤ 3 ∧
      (applyOps (TranscriptionState.new 3 200)
        [EngineOp.ingest 0 ⟨[finalTok "One."]⟩,
         EngineOp.ingest 0 ⟨[finalTok "Two."]⟩,
         EngineOp.ingest 0 ⟨[finalTok "Three."]⟩,
         EngineOp.ingest 0 ⟨[finalTok "Four."]⟩,
         EngineOp.tick 5 false []]).finishes_lines.length ≤ 3 - 1) ∧
    evictOldest 3 [AudioSubtitle.new_complete none "c",
      AudioSubtitle.new_complete none "b",
      AudioSubtitle.new_complete none "a"] =
      [AudioSubtitle.new_complete none "c", AudioSubtitle.new_complete none "b"] ∧
    (applyOps (TranscriptionState.new 3 200)
        [EngineOp.ingest 0 ⟨[finalTok "One."]⟩,
         EngineOp.ingest 0 ⟨[finalTok "Two."]⟩,
         EngineOp.ingest 0 ⟨[finalTok "Three."]⟩,
         EngineOp.ingest 0 ⟨[finalTok "Four."]⟩,
         EngineOp.tick 5 false []]).finishes_lines.map (fun b => b.text) =
      ["Four.", "Three."] := by
  have hb := bounded_blocks_oldest_evicted 3 200 (by decide)
    [EngineOp.ingest 0 ⟨[finalTok "One."]⟩,
     EngineOp.ingest 0 ⟨[finalTok "Two."]⟩,
     EngineOp.ingest 0 ⟨[finalTok "Three."]⟩,
     EngineOp.ingest 0 ⟨[finalTok "Four."]⟩,
     EngineOp.tick 5 false []]
  refine ⟨⟨by decide, hb.1⟩, ?_, ?_⟩
  · have := hb.2.1 [AudioSubtitle.new_complete none "c",
      AudioSubtitle.new_complete none "b",
      AudioSubtitle.new_complete none "a"] (by decide)
    rw [this]
    rfl
  · decide

/-- C5: a final token whose end-time offset is present and does not
exceed the highest already-confirmed offset contributes nothing to the
processed batch in either mode (the whole classification, final text
included, is as if the token were absent), and `last_final_ms` is
non-decreasing across every processed batch in both modes. -/
theorem final_dedup_and_monotone_end_ms
    (last0 : Int) (t : SonioxTranscriptionToken) (e : Int)
    (l1 l2 : List SonioxTranscriptionToken)
    (hfin : t.is_final = true) (hms : t.end_ms = some e) (hle : e ≤ last0) :
    transcribeClassify last0 (l1 ++ t :: l2) = transcribeClassify last0 (l1 ++ l2) ∧
    translateClassify last0 (l1 ++ t :: l2) = translateClassify last0 (l1 ++ l2) ∧
    (∀ tokens, last0 ≤ (transcribeClassify last0 tokens).max_ms) ∧
    (∀ tokens, last0 ≤ (translateClassify last0 tokens).max_ms) ∧
    (∀ (st : TranscriptionState) (resp : SonioxTranscriptionResponse),
      st.last_final_ms ≤ (transcribeProcessEvent st resp).last_final_ms) ∧
    (∀ (st : TranscriptionState) (resp : SonioxTranscriptionResponse),
      st.last_final_ms ≤ (translateProcessEvent st resp).last_final_ms) := by
  have hinv1 : last0 ≤
      (List.foldl (transcribeClassifyStep last0) (ClassifyAcc.init last0) l1).max_ms := by
    simpa using transcribeFold_max_mono last0 l1 (ClassifyAcc.init last0)
  have hinv2 : last0 ≤
      (List.foldl (translateClassifyStep last0) (ClassifyAcc.init last0) l1).max_ms := by
    simpa using translateFold_max_mono last0 l1 (ClassifyAcc.init last0)
  refine ⟨?_, ?_, ?_, ?_, ?_, ?_⟩
  · unfold transcribeClassify
    rw [List.foldl_append, List.foldl_append, List.foldl_cons,
      transcribeStep_dedup_skip last0 _ t e hfin hms hle hinv1]
  · unfold translateClassify
    rw [List.foldl_append, List.foldl_append, List.foldl_cons,
      translateStep_dedup_skip last0 _ t e hfin hms hle hinv2]
  · intro tokens
    simpa using transcribeFold_max_mono last0 tokens (ClassifyAcc.init last0)
  · intro tokens
    simpa using translateFold_max_mono last0 tokens (ClassifyAcc.init last0)
  · intro st resp
    rw [transcribeProcessEvent, modeProcessEvent_lf]
    simpa using transcribeFold_max_mono st.last_final_ms resp.tokens
      (ClassifyAcc.init st.last_final_ms)
  · intro st resp
    rw [translateProcessEvent, modeProcessEvent_lf]
    simpa using translateFold_max_mono st.last_final_ms resp.tokens
      (ClassifyAcc.init st.last_final_ms)

/-- C5 witness: with confirmed end-time 5, a final token at end-time 3
is dropped by both classifiers, and processing any batch never lowers
`last_final_ms`. -/
theorem final_dedup_and_monotone_end_ms_witness :
    transcribeClassify 5 ([] ++ dupTok :: []) = transcribeClassify 5 ([] ++ []) ∧
    translateClassify 5 ([] ++ dupTok :: []) = translateClassify 5 ([] ++ []) ∧
    (5 : Int) ≤ (transcribeClassify 5 [dupTok]).max_ms ∧
    (TranscriptionState.new 5 200).last_final_ms ≤
      (transcribeProcessEvent (TranscriptionState.new 5 200) ⟨[dupTok]⟩).last_final_ms := by
  have h := final_dedup_and_monotone_end_ms 5 dupTok 3 [] []
    (by decide) (by decide) (by decide)
  exact ⟨h.1, h.2.1, h.2.2.1 [dupTok], h.2.2.2.2.1 (TranscriptionState.new 5 200) ⟨[dupTok]⟩⟩

/-- C6 counterexample: in transcribe mode a final token tagged
`"translation"` — neither untagged nor original-tagged — IS retained
(its text enters the finalized segment), and a final token tagged
`"original"` is NOT retained; both contradict "in transcribe-only mode
only untagged/original tokens are retained". -/
theorem transcribe_mode_tag_filter_counterexample :
    helloTok.translation_status = some "translation" ∧
    (transcribeClassify 0 [helloTok]).final_text_segment = "hello" ∧
    (transcribeClassify 0 [helloTok]).has_final = true ∧
    bonjourTok.translation_status = some "original" ∧
    (transcribeClassify 0 [bonjourTok]).final_text_segment = "" ∧
    (transcribeClassify 0 [bonjourTok]).has_final = false := by
  exact ⟨by decide, by decide, by decide, by decide, by decide, by decide⟩

/-- C6 (amended): in translate mode only translation-tagged tokens are
retained (anything else is a classification no-op, interim included),
and in the spec's scenario only "hello" is committed while "bonjour"
appears in no block; in transcribe-only mode original-tagged final
tokens contribute nothing, final tokens not tagged original (untagged or
translation-tagged) without a regressed end-time are appended to the
finalized text, and interim tokens are retained regardless of tag. -/
theorem mode_policy_token_visibility
    (last0 : Int) (acc : ClassifyAcc) (t : SonioxTranscriptionToken)
    (l1 l2 : List SonioxTranscriptionToken) :
    (t.translation_status ≠ some "translation" →
      translateClassify last0 (l1 ++ t :: l2) = translateClassify last0 (l1 ++ l2)) ∧
    ((translateProcessEvent (TranscriptionState.new 5 200)
        ⟨[bonjourTok, helloTok]⟩).finishes_lines.map (fun b => b.text) = ["hello"] ∧
     ((translateProcessEvent (TranscriptionState.new 5 200)
        ⟨[bonjourTok, helloTok]⟩).iterBlocks.all
        (fun b => !(strContains b.text "bonjour") &&
                  !(strContains b.displayed_text "bonjour"))) = true) ∧
    (t.is_final = true → t.translation_status = some "original" →
      (transcribeClassifyStep last0 acc t).final_text_segment = acc.final_text_segment ∧
      (transcribeClassifyStep last0 acc t).has_final = acc.has_final ∧
      (transcribeClassifyStep last0 acc t).full_interim_text = acc.full_interim_text) ∧
    (t.is_final = true → ¬ t.translation_status = some "original" →
      (t.end_ms = none ∨ ∃ e, t.end_ms = some e ∧ last0 < e) →
      (transcribeClassifyStep last0 acc t).final_text_segment =
        strAppend acc.final_text_segment t.text ∧
      (transcribeClassifyStep last0 acc t).has_final = true) ∧
    (t.is_final = false →
      (transcribeClassifyStep last0 acc t).full_interim_text =
        strAppend acc.full_interim_text t.text) := by
  refine ⟨?_, ⟨by decide, by decide⟩, ?_, ?_, ?_⟩
  · intro ht
    unfold translateClassify
    rw [List.foldl_append, List.foldl_append, List.foldl_cons,
      translateStep_skip_nontranslation last0 _ t ht]
  · intro hfin horig
    simp only [transcribeClassifyStep, hfin, horig]
    repeat' split
    all_goals simp_all
  · intro hfin horig hpass
    rcases hpass with hnone | ⟨e, hsome, hlt⟩
    · simp [transcribeClassifyStep, hfin, horig, hnone]
    · have hd : decide (e ≤ last0) = false := decide_eq_false (by omega)
      simp [transcribeClassifyStep, hfin, horig, hsome, hd]
  · intro hfin
    simp [transcribeClassifyStep, hfin]

/-- C6 amended-claim witness: the original-tagged final token "bonjour"
is a classification no-op in translate mode and contributes no final
text in transcribe mode, while an untagged final token whose end-time 3
exceeds the confirmed offset 1 (passing dedup) is appended. -/
theorem mode_policy_token_visibility_witness :
    translateClassify 0 ([] ++ bonjourTok :: []) = translateClassify 0 ([] ++ []) ∧
    (transcribeClassifyStep 0 (ClassifyAcc.init 0) bonjourTok).final_text_segment =
      (ClassifyAcc.init 0).final_text_segment ∧
    (transcribeClassifyStep 1 (ClassifyAcc.init 1) dupTok).final_text_segment =
      strAppend (ClassifyAcc.init 1).final_text_segment dupTok.text ∧
    (transcribeClassifyStep 1 (ClassifyAcc.init 1) dupTok).has_final = true := by
  have h := mode_policy_token_visibility 0 (ClassifyAcc.init 0) bonjourTok [] []
  have h2 := mode_policy_token_visibility 1 (ClassifyAcc.init 1) dupTok [] []
  have hfresh := h2.2.2.2.1 (by decide) (by decide)
    (Or.inr ⟨3, by decide, by decide⟩)
  exact ⟨h.1 (by decide), (h.2.2.1 (by decide) (by decide)).1, hfresh.1, hfresh.2⟩

/-- C7: a purely interim batch whose speaker (first token) matches the
still-pending purely interim batch at the back of the queue replaces
that entry's content in place — same timestamp, unchanged queue length;
in every other case the batch is appended at the back with the current
instant; and the pending loop processes exactly the due prefix of the
queue in strict FIFO order, leaving the remainder queued. -/
theorem smart_buffer_collapse_and_fifo
    (st : TranscriptionState) (now : Nat) (resp : SonioxTranscriptionResponse) :
    (∀ q0 ts r0, st.event_queue = q0 ++ [(ts, r0)] →
      purelyInterim resp = true → purelyInterim r0 = true →
      firstSpeaker resp = firstSpeaker r0 →
      handleTranscription st now resp = { st with event_queue := q0 ++ [(ts, resp)] } ∧
      (handleTranscription st now resp).event_queue.length = st.event_queue.length) ∧
    ((purelyInterim resp = false ∨ st.event_queue = [] ∨
      (∀ ts r0, st.event_queue.getLast? = some (ts, r0) →
        purelyInterim r0 = false ∨ firstSpeaker resp ≠ firstSpeaker r0)) →
      handleTranscription st now resp =
        { st with event_queue := st.event_queue ++ [(now, resp)] }) ∧
    (∀ (st2 : TranscriptionState) (now2 : Nat),
      processPendingEvents st2 now2 =
        (processPendingGoTrace now2 st2.event_queue.length st2).1 ∧
      (processPendingGoTrace now2 st2.event_queue.length st2).2 =
        (st2.event_queue.takeWhile (fun e => entryDue st2.smart_delay_ms now2 e.1)).map
          (fun e => e.2) ∧
      (processPendingEvents st2 now2).event_queue =
        st2.event_queue.dropWhile (fun e => entryDue st2.smart_delay_ms now2 e.1)) := by
  refine ⟨?_, ?_, ?_⟩
  · intro q0 ts r0 hq hp hlp hsp
    have hlast : st.event_queue.getLast? = some (ts, r0) := by
      rw [hq]; exact List.getLast?_concat _
    have hdl : st.event_queue.dropLast = q0 := by
      rw [hq]; exact List.dropLast_concat
    constructor
    · unfold handleTranscription
      simp [hp, hlast, hlp, hsp, hdl]
    · unfold handleTranscription
      simp [hp, hlast, hlp, hsp, hdl, hq]
  · intro hcase
    unfold handleTranscription
    cases hp : purelyInterim resp with
    | false => simp [hp]
    | true =>
      cases hl : st.event_queue.getLast? with
      | none => simp [hp, hl]
      | some last =>
        rcases hcase with hc | hc | hc
        · rw [hp] at hc; cases hc
        · rw [hc] at hl; cases hl
        · rcases hc last.1 last.2 (by rw [hl]) with h | h
          · simp [hp, hl, h]
          · simp [hp, hl, h]
  · intro st2 now2
    have htr := processPendingGoTrace_spec now2 st2.event_queue.length st2 rfl
    refine ⟨processPendingGo_eq_trace now2 st2.event_queue.length st2, htr.1, ?_⟩
    rw [processPendingEvents, processPendingGo_eq_trace]
    exact htr.2

/-- C7 witness: the queued purely interim "Hel" batch is replaced in
place (same timestamp 0) by the purely interim "Hello" batch from the
same speaker, keeping the queue at length one; a batch with a final
token is appended instead. -/
theorem smart_buffer_collapse_and_fifo_witness :
    handleTranscription queueState 7 ⟨[interimTok "Hello"]⟩ =
      { queueState with event_queue := [(0, ⟨[interimTok "Hello"]⟩)] } ∧
    (handleTranscription queueState 7 ⟨[interimTok "Hello"]⟩).event_queue.length =
      queueState.event_queue.length ∧
    handleTranscription queueState 7 ⟨[finalTok "Hi"]⟩ =
      { queueState with event_queue :=
          queueState.event_queue ++ [(7, ⟨[finalTok "Hi"]⟩)] } := by
  have h1 := smart_buffer_collapse_and_fifo queueState 7 ⟨[interimTok "Hello"]⟩
  have h2 := smart_buffer_collapse_and_fifo queueState 7 ⟨[finalTok "Hi"]⟩
  have ha := h1.1 [] 0 ⟨[interimTok "Hel"]⟩ (by decide) (by decide) (by decide) (by decide)
  refine ⟨?_, ha.2, h2.2.1 (Or.inl (by decide))⟩
  · rw [ha.1]
    rfl

/-- C8 counterexample: on a state with committed blocks "oldest." and
"newest." plus an interim line, `iter` yields the interim line FIRST,
then the committed blocks newest-first — not oldest-first with the
interim line last as claimed. -/
theorem iter_order_counterexample :
    TranscriptionState.iterBlocks iterState =
      [AudioSubtitle.new_complete none "interim",
       AudioSubtitle.new_complete none "newest.",
       AudioSubtitle.new_complete none "oldest."] ∧
    TranscriptionState.iterBlocks iterState ≠
      [AudioSubtitle.new_complete none "oldest.",
       AudioSubtitle.new_complete none "newest.",
       AudioSubtitle.new_complete none "interim"] := by
  exact ⟨by decide, by decide⟩

/-- C8 (amended): the iteration exposed to the rendering collaborator
yields the Interim Line as its first element, followed by the committed
blocks from newest to oldest (`finishes_lines` front-to-back); the
renderer draws the sequence bottom-up, so the visual order is oldest at
the top, interim at the bottom. -/
theorem iter_yields_interim_first_then_newest (st : TranscriptionState) :
    (TranscriptionState.iterBlocks st).head? = some st.interim_line ∧
    (TranscriptionState.iterBlocks st).tail = st.finishes_lines ∧
    (TranscriptionState.iterBlocks st).length = st.finishes_lines.length + 1 := by
  simp [TranscriptionState.iterBlocks]

/-- C9: on the (spec-modelled) animation tick, committed blocks are
advanced oldest to newest, and whenever at least one committed block
still has unrevealed text after this tick's advance, the Interim Line is
left untouched. -/
theorem tick_gates_interim_on_committed
    (st : TranscriptionState) (lt : List Bool) (it : Bool) :
    (tickAnimationSpec st lt it).finishes_lines =
      (st.finishes_lines.reverse.enum.map
        (fun p => (p.2.update_animation false (lt.getD p.1 false)).1)).reverse ∧
    (((tickAnimationSpec st lt it).finishes_lines.any
        (fun b => strLen b.displayed_text < strLen b.text)) = true →
      (tickAnimationSpec st lt it).interim_line = st.interim_line) := by
  constructor
  · rfl
  · intro h
    simp only [tickAnimationSpec] at h ⊢
    have h2 : ((st.finishes_lines.reverse.enum.map
        (fun p => (p.2.update_animation false (lt.getD p.1 false)).1)).any
        (fun b => decide (strLen b.displayed_text < strLen b.text))) = true := by
      simp only [List.any_eq_true] at h ⊢
      obtain ⟨b, hb, hp⟩ := h
      exact ⟨b, List.mem_reverse.mp hb, hp⟩
    simp only [h2]
    simp

/-- C9 witness: a committed block at "a" of "abc" with its timer elapsed
advances to "ab", remains unrevealed, and the mid-reveal interim line is
not advanced this tick. -/
theorem tick_gates_interim_on_committed_witness :
    ((tickAnimationSpec animState [true] true).finishes_lines.any
        (fun b => strLen b.displayed_text < strLen b.text)) = true ∧
    (tickAnimationSpec animState [true] true).interim_line = animState.interim_line := by
  exact ⟨by decide, (tick_gates_interim_on_committed animState [true] true).2 (by decide)⟩

/-- C10: fourteen copies of the two-byte character U+00E9 with
`max_chars_in_block = 11` drive the force-split of `push_final` to the
fallback byte index `limit.min(text.len()) = 11`, which is not a
character boundary: the Rust `split_at` call panics (modelled as `none`),
confirming the latent multi-byte slicing bug. -/
theorem byte_split_panics_inside_multibyte_char :
    strByteLen eAcute14 > 11 + 15 ∧
    forcedSplitIdxBytes eAcute14 11 = 11 ∧
    isCharBoundary eAcute14 11 = false ∧
    pushFinalChunkBytes eAcute14 11 = none := by
  exact ⟨by decide, by decide, by decide, by decide⟩

end SoniLive
